import Mathlib

/-!
Shallow embedding of hwstat.h (namespace hwstat): a per-thread statistics
library with a global registry, per-thread counter/timer accumulators,
TSC frequency calibration, stopwatch and scoped-timer helpers, and no-op
variants for the disabled build.  Machine integers (uint64_t) are modelled
as Nat with explicit reduction modulo 2^64; C++ doubles appearing in the
derived timer metrics are modelled as rationals; the fallible constructor
checks are modelled with Except.
-/

namespace Hwstat

/-- Modulus of uint64_t arithmetic. -/
def W : Nat := 2 ^ 64

/-! ## TimerAgg (src/hwstat.h lines 133-140)

struct TimerAgg \x7b uint64_t cnt = 0; uint64_t cycles = 0; ... \x7d
with derived metrics getNanos, getAvgCycles, getAvgNanos.
kFreqGhz (a double) is passed explicitly as a rational parameter. -/

structure TimerAgg where
  cnt : Nat
  cycles : Nat
deriving DecidableEq, Repr

/-- double getNanos() const: cycles / kFreqGhz. -/
def TimerAgg.getNanos (freq : ℚ) (a : TimerAgg) : ℚ := (a.cycles : ℚ) / freq

/-- uint64_t getAvgCycles() const: cycles / cnt (integer division). -/
def TimerAgg.getAvgCycles (a : TimerAgg) : Nat := a.cycles / a.cnt

/-- double getAvgNanos() const: getNanos() / cnt. -/
def TimerAgg.getAvgNanos (freq : ℚ) (a : TimerAgg) : ℚ :=
  a.getNanos freq / (a.cnt : ℚ)

/-! ## PerThreadTimer (src/hwstat.h lines 142-162) -/

structure PerThreadTimer where
  cycles : Nat
  cnt : Nat
deriving DecidableEq, Repr

/-- void add(uint64_t dc = 0): cycles += dc; cnt++  (uint64_t wrap). -/
def PerThreadTimer.add (t : PerThreadTimer) (dc : Nat) : PerThreadTimer :=
  ⟨(t.cycles + dc) % W, (t.cnt + 1) % W⟩

/-- The default argument of add: add() is add(0). -/
def PerThreadTimer.addDefault (t : PerThreadTimer) : PerThreadTimer := t.add 0

/-- AggregateType aggregate(AggregateType prev): prev.cnt += cnt; prev.cycles += cycles. -/
def PerThreadTimer.aggregate (t : PerThreadTimer) (prev : TimerAgg) : TimerAgg :=
  ⟨(prev.cnt + t.cnt) % W, (prev.cycles + t.cycles) % W⟩

/-- A freshly constructed per-thread timer (both fields zero-initialised). -/
def PerThreadTimer.init : PerThreadTimer := ⟨0, 0⟩

/-- State of one per-thread timer after a sequence of add(d) calls from the
initial state. -/
def timerRun (ds : List Nat) : PerThreadTimer :=
  ds.foldl PerThreadTimer.add PerThreadTimer.init

/-- The aggregate a lone timer contributes, folded into a zero aggregate. -/
def timerAggOf (ds : List Nat) : TimerAgg :=
  (timerRun ds).aggregate ⟨0, 0⟩

/-! ## printStats average display (src/hwstat.h lines 296-297)

auto avg_nanos  = agg.cycles == 0 ? "N/A" : format_time(agg.getAvgNanos());
auto avg_cycles = agg.cycles == 0 ? "N/A" : std::to_string(agg.getAvgCycles());

The condition the code tests for printing the "N/A" marker: -/

def avgDisplayIsNA (a : TimerAgg) : Bool := a.cycles == 0

/-! ## PerThreadCounter and its GlobalStat registry
(src/hwstat.h lines 31-71 and 176-193)

GlobalStat holds a set of live instances and an aggregate agg.
reg inserts an instance, dereg folds the deregistering instance's value
into agg and erases it from the set, and calcStat copies agg and folds
every live instance's aggregate into the copy.  A PerThreadCounter holds
a uint64_t cnt; add(d) does cnt += d and aggregate(prev) returns
prev + cnt.  One registry entry together with the per-thread counters
feeding it is modelled as a transition system; instances are identified
by construction order (fresh ids) and the instance set is a list of
(id, cnt) pairs.  A ghost running total of every delta ever added to a
live instance is threaded alongside. -/

/-- PerThreadCounter add: cnt += d, uint64_t wrap. -/
def counterAdd (c d : Nat) : Nat := (c + d) % W

/-- PerThreadCounter aggregate: returns prev + cnt, uint64_t wrap. -/
def counterAggregate (cnt prev : Nat) : Nat := (prev + cnt) % W

structure CState where
  nextId : Nat
  instances : List (Nat × Nat)
  agg : Nat
deriving DecidableEq, Repr

/-- Registry entry right after GlobalStat's constructor: no live
instances, zero aggregate. -/
def CState.init : CState := ⟨0, [], 0⟩

inductive COp where
  | reg : COp
  | add : Nat → Nat → COp
  | dereg : Nat → COp
deriving DecidableEq, Repr

/-- std::set-style search for the instance with identity i. -/
def findCnt (l : List (Nat × Nat)) (i : Nat) : Option Nat :=
  match l with
  | [] => none
  | p :: r => if p.1 = i then some p.2 else findCnt r i

/-- The update performed by add d on the instance with identity i. -/
def addToInstance (i d : Nat) (p : Nat × Nat) : Nat × Nat :=
  if p.1 = i then (p.1, counterAdd p.2 d) else p

/-- One step of the registry system: reg (constructor of a fresh
per-thread counter), add on a live counter, dereg (destructor). -/
def cStep (s : CState) : COp → CState
  | .reg => ⟨s.nextId + 1, (s.nextId, 0) :: s.instances, s.agg⟩
  | .add i d => ⟨s.nextId, s.instances.map (addToInstance i d), s.agg⟩
  | .dereg i =>
      match findCnt s.instances i with
      | none => s
      | some c =>
          ⟨s.nextId, s.instances.filter (fun q => decide (q.1 ≠ i)),
           counterAggregate c s.agg⟩

/-- Ghost total: deltas added to a live instance accumulate exactly. -/
def cTotalStep (s : CState) (t : Nat) : COp → Nat
  | .add i d => if (findCnt s.instances i).isSome then t + d else t
  | _ => t

def cStepTot (st : CState × Nat) (op : COp) : CState × Nat :=
  (cStep st.1 op, cTotalStep st.1 st.2 op)

def cRun (ops : List COp) : CState := ops.foldl cStep CState.init

def cRunTot (ops : List COp) : CState × Nat :=
  ops.foldl cStepTot (CState.init, 0)

/-- The body of calcStat's loop: nagg = i->aggregate(nagg) over the
instance set. -/
def foldAgg (a : Nat) (l : List (Nat × Nat)) : Nat :=
  l.foldl (fun nagg p => counterAggregate p.2 nagg) a

/-- GlobalStat::calcStat (src/hwstat.h lines 58-65): copy agg, then fold
every live instance into the copy. -/
def calcStat (s : CState) : Nat := foldAgg s.agg s.instances

def keysOf (l : List (Nat × Nat)) : List Nat := l.map Prod.fst

def sndSum (l : List (Nat × Nat)) : Nat := (l.map Prod.snd).sum

/-- The registry invariant, with the ghost total: keys are distinct and
fresh, all stored values are reduced uint64 values, and the retired
aggregate plus the live values accounts for everything ever added. -/
structure CInv (s : CState) (total : Nat) : Prop where
  nodup : (keysOf s.instances).Nodup
  bounded : ∀ k ∈ keysOf s.instances, k < s.nextId
  aggLt : s.agg < W
  cntLt : ∀ p ∈ s.instances, p.2 < W
  sum_eq : s.agg + sndSum s.instances ≡ total [MOD W]

/-! ## calcStat split into its two atomic phases (for the race analysis)

In the source (src/hwstat.h lines 58-60) the copy "auto nagg = agg;"
is executed BEFORE the std::lock_guard on the following line, so the
read of agg and the locked iteration over the instance set are two
separate steps that a concurrent dereg can interleave. -/

/-- Phase 1 of calcStat as written: the unlocked copy of agg. -/
def calcStatPreLockRead (s : CState) : Nat := s.agg

/-- Phase 2 of calcStat: the locked fold over the live instances. -/
def calcStatLockedFold (nagg : Nat) (s : CState) : Nat :=
  foldAgg nagg s.instances

/-- The interleaving in which another thread's dereg i runs between
calcStat's unlocked read of agg and its locked fold. -/
def calcStatRacedWithDereg (s : CState) (i : Nat) : Nat :=
  calcStatLockedFold (calcStatPreLockRead s) (cStep s (COp.dereg i))

/-! ## printStats display of the timer averages
(src/hwstat.h lines 296-297)

auto avg_nanos  = agg.cycles == 0 ? "N/A" : format_time(agg.getAvgNanos());
auto avg_cycles = agg.cycles == 0 ? "N/A" : std::to_string(agg.getAvgCycles());

none models the "N/A" marker, some the numeric display. -/

def avgNanosDisplay (freq : ℚ) (a : TimerAgg) : Option ℚ :=
  if a.cycles = 0 then none else some (a.getAvgNanos freq)

def avgCyclesDisplay (a : TimerAgg) : Option Nat :=
  if a.cycles = 0 then none else some a.getAvgCycles

/-! ## Frequency calibration (src/hwstat.h lines 112-131 and 136)

measure_tsc_ghz reads the tsc, sleeps, reads again, and returns
double(end - start) / count_ns.  There is no guard anywhere: whatever
ratio results -- including zero or a negative value -- is logged and
returned, and TimerAgg::kFreqGhz caches it unconditionally.  Doubles are
modelled as rationals; elapsed_cycles is the uint64 difference
end - start and count_ns the signed nanosecond count of the system
clock. -/

def measure_tsc_ghz (elapsed_cycles : Nat) (count_ns : Int) : ℚ :=
  (elapsed_cycles : ℚ) / (count_ns : ℚ)

/-- static inline double kFreqGhz = measure_tsc_ghz(): the initialiser
stores the measured value as is. -/
def kFreqGhzInit (measured : ℚ) : ℚ := measured

/-! ## The process-wide name directory (src/hwstat.h lines 38-46, 69,
78-94)

static inline std::map of name to entry.  GlobalStat's constructor does
stats.emplace(name, this) and its destructor does stats.erase(name);
SimpleStat uses stats.insert(\x7bname, this\x7d) and stats.erase(name).
Both std::map::emplace and std::map::insert refuse to overwrite an
existing key.  Keys are modelled as Option String, none standing for a
null char pointer; entries are identified by a Nat. -/

abbrev DirMap := List (Option String × Nat)

/-- std::map::emplace / insert: no effect when the key is present. -/
def dirEmplace (m : DirMap) (k : Option String) (v : Nat) : DirMap :=
  if (m.map Prod.fst).contains k then m else (k, v) :: m

/-- std::map::erase by key. -/
def dirErase (m : DirMap) (k : Option String) : DirMap :=
  m.filter (fun p => p.1 != k)

/-- std::map::find / lookup by key. -/
def dirFind (m : DirMap) (k : Option String) : Option Nat :=
  match m with
  | [] => none
  | p :: r => if p.1 = k then some p.2 else dirFind r k

/-- GlobalStat's constructor (src/hwstat.h lines 38-42): assert(name)
rejects a null name when assertions are compiled in; nothing else is
validated (an empty string passes), and the entry is emplaced. -/
def globalStatCtor (name : Option String) (m : DirMap) (v : Nat) :
    Except Unit DirMap :=
  match name with
  | none => Except.error ()
  | some n => Except.ok (dirEmplace m (some n) v)

/-- SimpleStat's constructor (src/hwstat.h lines 78-82): no validation at
all; the entry is inserted whatever the name is. -/
def simpleStatCtor (name : Option String) (m : DirMap) (v : Nat) :
    Except Unit DirMap :=
  Except.ok (dirEmplace m name v)

/-! ## Stopwatch and ScopedTimer (src/hwstat.h lines 218-262)

StopwatchBase holds a start mark st and a running total agg, both
uint64_t.  The constructor calls restart(); pause() adds
timer_func() - st to agg; resume() stores a fresh reading in st;
stop() pauses, commits agg to the owning timer via add, and zeroes agg.
ScopedTimer builds a stopwatch at construction and unconditionally calls
stop() in its destructor.  Cycle-counter readings are supplied
explicitly as arguments. -/

/-- uint64 subtraction a - b with wraparound. -/
def sub64 (a b : Nat) : Nat := (a % W + (W - b % W)) % W

structure Stopwatch where
  st : Nat
  agg : Nat
deriving DecidableEq, Repr

/-- StopwatchBase(TimerType and timer): restart() stores the current
reading; agg is zero-initialised. -/
def Stopwatch.ctor (now : Nat) : Stopwatch := ⟨now % W, 0⟩

/-- void pause(): agg += timer_func() - st. -/
def Stopwatch.pause (sw : Stopwatch) (now : Nat) : Stopwatch :=
  ⟨sw.st, (sw.agg + sub64 now sw.st) % W⟩

/-- void resume(): st = timer_func(). -/
def Stopwatch.resume (sw : Stopwatch) (now : Nat) : Stopwatch :=
  ⟨now % W, sw.agg⟩

/-- void restart(): resume(). -/
def Stopwatch.restart (sw : Stopwatch) (now : Nat) : Stopwatch :=
  sw.resume now

/-- void stop(): pause(); timer.add(agg); agg = 0. -/
def Stopwatch.stop (sw : Stopwatch) (now : Nat) (t : PerThreadTimer) :
    Stopwatch × PerThreadTimer :=
  let sw' := sw.pause now
  (⟨sw'.st, 0⟩, t.add sw'.agg)

/-- A pause or resume call together with the cycle reading it observes. -/
inductive SwOp where
  | pause : Nat → SwOp
  | resume : Nat → SwOp
deriving DecidableEq, Repr

def runSw (sw : Stopwatch) : List SwOp → Stopwatch
  | [] => sw
  | SwOp.pause n :: r => runSw (sw.pause n) r
  | SwOp.resume n :: r => runSw (sw.resume n) r

/-- The full life of a ScopedTimer over a scope: the constructor builds
the stopwatch at reading tStart, the destructor calls stop() at reading
tEnd; the timer after the scope exits. -/
def scopedTimerLife (tStart tEnd : Nat) (t : PerThreadTimer) :
    PerThreadTimer :=
  ((Stopwatch.ctor tStart).stop tEnd t).2

/-! ## Disabled-mode (NO_STAT) variants (src/hwstat.h lines 164-174,
195-208, 237-244, 318-322)

NoopTimer / NoopCounter have empty constructor and destructor bodies (no
reg, no dereg), add does nothing, and aggregate and stat return a
value-initialised AggregateType.  NoopStopwatch's four operations are
empty.  The printStats specialisations for the noop types have empty
bodies.  Output of a printStats call is modelled as the list of lines it
logs. -/

/-- NoopTimer::aggregate: returns AggregateType\x7b\x7d whatever prev is. -/
def noopTimerAggregate (_prev : TimerAgg) : TimerAgg := ⟨0, 0⟩

/-- NoopTimer::stat. -/
def noopTimerStat : TimerAgg := ⟨0, 0⟩

/-- NoopCounter::aggregate. -/
def noopCounterAggregate (_prev : Nat) : Nat := 0

/-- NoopCounter::stat. -/
def noopCounterStat : Nat := 0

/-- The effect of any NoopTimer / NoopCounter lifecycle event
(construction, add, destruction) on its GlobalStat registry entry: none,
since the noop constructor and destructor bodies are empty and add
touches nothing. -/
def noopRegistryStep (s : CState) (_op : COp) : CState := s

def noopRegistryRun (ops : List COp) : CState :=
  ops.foldl noopRegistryStep CState.init

/-- NoopStopwatch: all four operations leave the stopwatch and timer
untouched. -/
def noopStopwatchStop (sw : Stopwatch) (t : PerThreadTimer) :
    Stopwatch × PerThreadTimer := (sw, t)

/-- GlobalStat printStats specialisation for NoopTimer (line 319):
empty body, logs nothing. -/
def noopTimerPrintStats (_dir : DirMap) : List String := []

/-- GlobalStat printStats specialisation for NoopCounter (line 322):
empty body, logs nothing. -/
def noopCounterPrintStats (_dir : DirMap) : List String := []

/-! # Lemmas and verification theorems -/

lemma W_pos : 0 < W := by norm_num [W]

lemma foldl_add_eq (ds : List Nat) :
    ∀ c k : Nat, c < W → k < W →
      ds.foldl PerThreadTimer.add ⟨c, k⟩ =
        ⟨(c + ds.sum) % W, (k + ds.length) % W⟩ := by
  induction ds with
  | nil =>
      intro c k hc hk
      simp [Nat.mod_eq_of_lt hc, Nat.mod_eq_of_lt hk]
  | cons d ds ih =>
      intro c k hc hk
      have h1 : (c + d) % W < W := Nat.mod_lt _ W_pos
      have h2 : (k + 1) % W < W := Nat.mod_lt _ W_pos
      simp only [List.foldl_cons, PerThreadTimer.add]
      rw [ih _ _ h1 h2]
      simp only [List.sum_cons, List.length_cons]
      refine congrArg₂ PerThreadTimer.mk ?_ ?_
      · rw [Nat.mod_add_mod, add_assoc]
      · rw [Nat.mod_add_mod]
        congr 1
        omega

lemma timerRun_cycles (ds : List Nat) : (timerRun ds).cycles = ds.sum % W := by
  have := foldl_add_eq ds 0 0 W_pos W_pos
  simp [timerRun, PerThreadTimer.init, this]

lemma timerRun_cnt (ds : List Nat) : (timerRun ds).cnt = ds.length % W := by
  have := foldl_add_eq ds 0 0 W_pos W_pos
  simp [timerRun, PerThreadTimer.init, this]

/-! ### Helper lemmas for the registry invariant -/

lemma keysOf_cons (p : Nat × Nat) (r : List (Nat × Nat)) :
    keysOf (p :: r) = p.1 :: keysOf r := rfl

lemma sndSum_cons (p : Nat × Nat) (r : List (Nat × Nat)) :
    sndSum (p :: r) = p.2 + sndSum r := by
  simp [sndSum]

lemma findCnt_none_iff (l : List (Nat × Nat)) (i : Nat) :
    findCnt l i = none ↔ i ∉ keysOf l := by
  induction l with
  | nil => simp [findCnt, keysOf]
  | cons p r ih =>
      rw [keysOf_cons]
      by_cases h : p.1 = i
      · constructor
        · intro hn
          exact absurd hn (by simp [findCnt, h])
        · intro hn
          exact absurd (List.mem_cons_self _ _) (h ▸ hn)
      · show (if p.1 = i then some p.2 else findCnt r i) = none ↔ _
        rw [if_neg h, ih]
        constructor
        · intro hn hc
          rcases List.mem_cons.mp hc with hc | hc
          · exact h hc.symm
          · exact hn hc
        · intro hn hc
          exact hn (List.mem_cons_of_mem _ hc)

lemma findCnt_mem (l : List (Nat × Nat)) (i c : Nat)
    (h : findCnt l i = some c) : (i, c) ∈ l := by
  induction l with
  | nil => simp [findCnt] at h
  | cons p r ih =>
      by_cases hp : p.1 = i
      · have h2 : some p.2 = some c := by
          rw [← h]
          show _ = (if p.1 = i then some p.2 else findCnt r i)
          rw [if_pos hp]
        have : p = (i, c) := by
          obtain ⟨p1, p2⟩ := p
          simp at hp h2
          simp [hp, h2]
        rw [← this]
        exact List.mem_cons_self _ _
      · have h2 : findCnt r i = some c := by
          rw [← h]
          show _ = (if p.1 = i then some p.2 else findCnt r i)
          rw [if_neg hp]
        exact List.mem_cons_of_mem _ (ih h2)

lemma map_addToInstance_id (l : List (Nat × Nat)) (i d : Nat)
    (h : i ∉ keysOf l) : l.map (addToInstance i d) = l := by
  induction l with
  | nil => rfl
  | cons p r ih =>
      rw [keysOf_cons] at h
      have h1 : p.1 ≠ i := fun he => h (he ▸ List.mem_cons_self _ _)
      have h2 : i ∉ keysOf r := fun he => h (List.mem_cons_of_mem _ he)
      rw [List.map_cons, ih h2, addToInstance, if_neg h1]

lemma filter_ne_id (l : List (Nat × Nat)) (i : Nat)
    (h : i ∉ keysOf l) : l.filter (fun q => decide (q.1 ≠ i)) = l := by
  induction l with
  | nil => rfl
  | cons p r ih =>
      rw [keysOf_cons] at h
      have h1 : p.1 ≠ i := fun he => h (he ▸ List.mem_cons_self _ _)
      have h2 : i ∉ keysOf r := fun he => h (List.mem_cons_of_mem _ he)
      rw [List.filter_cons, ih h2, if_pos (by simpa using h1)]

lemma keys_map_addToInstance (l : List (Nat × Nat)) (i d : Nat) :
    keysOf (l.map (addToInstance i d)) = keysOf l := by
  induction l with
  | nil => rfl
  | cons p r ih =>
      rw [List.map_cons, keysOf_cons, keysOf_cons, ih]
      by_cases h : p.1 = i
      · rw [addToInstance, if_pos h]
      · rw [addToInstance, if_neg h]

lemma sndSum_map_addToInstance (l : List (Nat × Nat)) (i d : Nat)
    (hnd : (keysOf l).Nodup) (hmem : i ∈ keysOf l) :
    sndSum (l.map (addToInstance i d)) ≡ sndSum l + d [MOD W] := by
  induction l with
  | nil => simp [keysOf] at hmem
  | cons p r ih =>
      rw [keysOf_cons, List.nodup_cons] at hnd
      by_cases h : p.1 = i
      · have hr : i ∉ keysOf r := h ▸ hnd.1
        rw [List.map_cons, map_addToInstance_id r i d hr,
          addToInstance, if_pos h, sndSum_cons, sndSum_cons]
        show (p.2 + d) % W + sndSum r ≡ _ [MOD W]
        calc (p.2 + d) % W + sndSum r
            ≡ p.2 + d + sndSum r [MOD W] :=
              Nat.ModEq.add_right _ (Nat.mod_modEq _ _)
          _ = p.2 + sndSum r + d := by ring
      · have hmr : i ∈ keysOf r := by
          rcases List.mem_cons.mp (keysOf_cons p r ▸ hmem) with hc | hc
          · exact absurd hc.symm h
          · exact hc
        rw [List.map_cons, addToInstance, if_neg h, sndSum_cons, sndSum_cons]
        calc p.2 + sndSum (r.map (addToInstance i d))
            ≡ p.2 + (sndSum r + d) [MOD W] :=
              Nat.ModEq.add_left _ (ih hnd.2 hmr)
          _ = p.2 + sndSum r + d := by ring

lemma sndSum_filter_ne (l : List (Nat × Nat)) (i c : Nat)
    (hnd : (keysOf l).Nodup) (hc : findCnt l i = some c) :
    sndSum (l.filter (fun q => decide (q.1 ≠ i))) + c = sndSum l := by
  induction l with
  | nil => simp [findCnt] at hc
  | cons p r ih =>
      rw [keysOf_cons, List.nodup_cons] at hnd
      by_cases h : p.1 = i
      · have hr : i ∉ keysOf r := h ▸ hnd.1
        have h2 : some p.2 = some c := by
          rw [← hc]
          show _ = (if p.1 = i then some p.2 else findCnt r i)
          rw [if_pos h]
        have hpc : p.2 = c := by injection h2
        rw [List.filter_cons, if_neg (by simp [h]), filter_ne_id r i hr,
          sndSum_cons, hpc]
        ring
      · have h2 : findCnt r i = some c := by
          rw [← hc]
          show _ = (if p.1 = i then some p.2 else findCnt r i)
          rw [if_neg h]
        rw [List.filter_cons, if_pos (by simpa using h), sndSum_cons,
          sndSum_cons]
        have := ih hnd.2 h2
        omega

lemma keysOf_filter_sub (l : List (Nat × Nat)) (i : Nat) :
    ∀ k ∈ keysOf (l.filter (fun q => decide (q.1 ≠ i))), k ∈ keysOf l := by
  intro k hk
  simp only [keysOf, List.mem_map] at hk ⊢
  obtain ⟨p, hp, hpk⟩ := hk
  exact ⟨p, List.mem_of_mem_filter hp, hpk⟩

lemma keysOf_filter_nodup (l : List (Nat × Nat)) (i : Nat)
    (hnd : (keysOf l).Nodup) :
    (keysOf (l.filter (fun q => decide (q.1 ≠ i)))).Nodup := by
  induction l with
  | nil => simp [keysOf]
  | cons p r ih =>
      rw [keysOf_cons, List.nodup_cons] at hnd
      rw [List.filter_cons]
      by_cases h : p.1 = i
      · rw [if_neg (by simp [h])]
        exact ih hnd.2
      · rw [if_pos (by simpa using h), keysOf_cons, List.nodup_cons]
        exact ⟨fun hq => hnd.1 (keysOf_filter_sub r i p.1 hq), ih hnd.2⟩

lemma foldAgg_eq (l : List (Nat × Nat)) :
    ∀ a : Nat, a < W → foldAgg a l = (a + sndSum l) % W := by
  induction l with
  | nil =>
      intro a ha
      simp [foldAgg, sndSum, Nat.mod_eq_of_lt ha]
  | cons p r ih =>
      intro a ha
      simp only [foldAgg, List.foldl_cons, counterAggregate] at *
      rw [ih _ (Nat.mod_lt _ W_pos)]
      simp [sndSum, Nat.mod_add_mod]
      congr 1
      ring

lemma cInv_init : CInv CState.init 0 := by
  refine ⟨?_, ?_, W_pos, ?_, ?_⟩ <;> simp [CState.init, keysOf, sndSum]
  rfl

lemma cInv_step (s : CState) (t : Nat) (op : COp) (h : CInv s t) :
    CInv (cStep s op) (cTotalStep s t op) := by
  cases op with
  | reg =>
      refine ⟨?_, ?_, h.aggLt, ?_, ?_⟩
      · show (keysOf ((s.nextId, 0) :: s.instances)).Nodup
        rw [keysOf_cons, List.nodup_cons]
        exact ⟨fun hc => lt_irrefl _ (h.bounded _ hc), h.nodup⟩
      · show ∀ k ∈ keysOf ((s.nextId, 0) :: s.instances), k < s.nextId + 1
        rw [keysOf_cons]
        intro k hk
        rcases List.mem_cons.mp hk with hk | hk
        · rw [hk]
          exact Nat.lt_succ_self _
        · have := h.bounded k hk
          omega
      · show ∀ p ∈ (s.nextId, 0) :: s.instances, p.2 < W
        intro p hp
        rcases List.mem_cons.mp hp with hp | hp
        · rw [hp]
          exact W_pos
        · exact h.cntLt p hp
      · show s.agg + sndSum ((s.nextId, 0) :: s.instances) ≡ t [MOD W]
        rw [sndSum_cons]
        simpa using h.sum_eq
  | add i d =>
      by_cases hm : i ∈ keysOf s.instances
      · have hsome : (findCnt s.instances i).isSome = true := by
          rcases ho : findCnt s.instances i with _ | c
          · exact absurd ((findCnt_none_iff _ _).mp ho) (by simpa using hm)
          · rfl
        refine ⟨?_, ?_, h.aggLt, ?_, ?_⟩
        · rw [cStep, keys_map_addToInstance]
          exact h.nodup
        · rw [cStep, keys_map_addToInstance]
          exact h.bounded
        · rw [cStep]
          intro p hp
          obtain ⟨q, hq, hqp⟩ := List.mem_map.mp hp
          rw [← hqp, addToInstance]
          by_cases hqi : q.1 = i
          · rw [if_pos hqi]
            exact Nat.mod_lt _ W_pos
          · rw [if_neg hqi]
            exact h.cntLt q hq
        · rw [cStep, cTotalStep, if_pos hsome]
          calc s.agg + sndSum (s.instances.map (addToInstance i d))
              ≡ s.agg + (sndSum s.instances + d) [MOD W] :=
                Nat.ModEq.add_left _
                  (sndSum_map_addToInstance _ _ _ h.nodup hm)
            _ = s.agg + sndSum s.instances + d := by ring
            _ ≡ t + d [MOD W] := Nat.ModEq.add_right _ h.sum_eq
      · have hn : findCnt s.instances i = none := (findCnt_none_iff _ _).mpr hm
        have hmap := map_addToInstance_id s.instances i d hm
        refine ⟨?_, ?_, ?_, ?_, ?_⟩ <;>
          simp only [cStep, cTotalStep, hmap, hn, Option.isSome_none,
            Bool.false_eq_true, if_false]
        exacts [h.nodup, h.bounded, h.aggLt, h.cntLt, h.sum_eq]
  | dereg i =>
      rcases hfc : findCnt s.instances i with _ | c
      · refine ⟨?_, ?_, ?_, ?_, ?_⟩ <;> simp only [cStep, cTotalStep, hfc]
        exacts [h.nodup, h.bounded, h.aggLt, h.cntLt, h.sum_eq]
      · have hc_lt : c < W := h.cntLt _ (findCnt_mem _ _ _ hfc)
        refine ⟨?_, ?_, ?_, ?_, ?_⟩ <;> simp only [cStep, cTotalStep, hfc]
        · exact keysOf_filter_nodup _ _ h.nodup
        · exact fun k hk => h.bounded k (keysOf_filter_sub _ _ k hk)
        · exact Nat.mod_lt _ W_pos
        · exact fun p hp => h.cntLt p (List.mem_of_mem_filter hp)
        · calc counterAggregate c s.agg +
                sndSum (s.instances.filter (fun q => decide (q.1 ≠ i)))
              ≡ s.agg + c +
                sndSum (s.instances.filter (fun q => decide (q.1 ≠ i)))
                  [MOD W] :=
                Nat.ModEq.add_right _ (Nat.mod_modEq _ _)
            _ = s.agg + (sndSum (s.instances.filter
                  (fun q => decide (q.1 ≠ i))) + c) := by ring
            _ = s.agg + sndSum s.instances := by
                rw [sndSum_filter_ne _ _ _ h.nodup hfc]
            _ ≡ t [MOD W] := h.sum_eq

lemma cRunTot_fst : ∀ (ops : List COp) (s : CState) (t : Nat),
    (ops.foldl cStepTot (s, t)).1 = ops.foldl cStep s := by
  intro ops
  induction ops with
  | nil => intro s t; rfl
  | cons op rest ih => intro s t; exact ih _ _

lemma cInv_foldl : ∀ (ops : List COp) (s : CState) (t : Nat), CInv s t →
    CInv (ops.foldl cStepTot (s, t)).1 (ops.foldl cStepTot (s, t)).2 := by
  intro ops
  induction ops with
  | nil => intro s t h; exact h
  | cons op rest ih => intro s t h; exact ih _ _ (cInv_step s t op h)

lemma cInv_run (ops : List COp) : CInv (cRun ops) (cRunTot ops).2 := by
  have h := cInv_foldl ops CState.init 0 cInv_init
  rwa [cRunTot_fst ops CState.init 0] at h

lemma calcStat_eq_total (s : CState) (t : Nat) (h : CInv s t) :
    calcStat s = t % W := by
  rw [calcStat, foldAgg_eq _ _ h.aggLt]
  exact h.sum_eq

/-- Without interleaving, the two phases compose to calcStat. -/
lemma calcStat_phases (s : CState) :
    calcStatLockedFold (calcStatPreLockRead s) s = calcStat s := rfl

/-! ### Auxiliary lemmas for the claim theorems -/

lemma timerAggOf_cnt (ds : List Nat) : (timerAggOf ds).cnt = ds.length % W := by
  show (0 + (timerRun ds).cnt) % W = ds.length % W
  rw [timerRun_cnt, Nat.zero_add, Nat.mod_mod_of_dvd _ dvd_rfl]

lemma timerAggOf_cycles (ds : List Nat) :
    (timerAggOf ds).cycles = ds.sum % W := by
  show (0 + (timerRun ds).cycles) % W = ds.sum % W
  rw [timerRun_cycles, Nat.zero_add, Nat.mod_mod_of_dvd _ dvd_rfl]

lemma noopRegistryFoldl (ops : List COp) : ∀ s : CState,
    ops.foldl noopRegistryStep s = s := by
  induction ops with
  | nil => intro s; rfl
  | cons op rest ih => intro s; exact ih s

/-! ### Claim theorems -/

/-- C1: Registry aggregation invariant: for every sequence of operations
in which each per-thread accumulator registers once at construction,
accumulates values, and deregisters once at destruction, calcStat returns
the retired aggregate folded with the current values of every
still-registered instance, and that value equals the total of everything
ever added since the start (modulo the uint64 wrap, hence exactly
whenever the total fits in 64 bits: in particular after N unit
increments across any mix of destroyed and live accumulators it returns
exactly N). -/
theorem registry_aggregation_invariant (ops : List COp) :
    calcStat (cRun ops) = foldAgg (cRun ops).agg (cRun ops).instances ∧
    calcStat (cRun ops) = (cRunTot ops).2 % W ∧
    ((cRunTot ops).2 < W → calcStat (cRun ops) = (cRunTot ops).2) := by
  refine ⟨rfl, calcStat_eq_total _ _ (cInv_run ops), fun h => ?_⟩
  rw [calcStat_eq_total _ _ (cInv_run ops), Nat.mod_eq_of_lt h]

/-- C1 witness: two accumulators, adds of 2, 3 and 5, the first
accumulator destroyed mid-run; the aggregate is exactly 2 + 3 + 5. -/
theorem registry_aggregation_invariant_witness :
    (cRunTot [COp.reg, COp.add 0 2, COp.reg, COp.add 1 3, COp.dereg 0,
      COp.add 1 5]).2 < W ∧
    calcStat (cRun [COp.reg, COp.add 0 2, COp.reg, COp.add 1 3,
      COp.dereg 0, COp.add 1 5]) = 10 := by
  refine ⟨by decide, ?_⟩
  rw [(registry_aggregation_invariant [COp.reg, COp.add 0 2, COp.reg,
    COp.add 1 3, COp.dereg 0, COp.add 1 5]).2.2 (by decide)]
  decide

/-- C2: the code reads agg into nagg BEFORE acquiring the registry mutex
(src/hwstat.h line 59 precedes the lock_guard on line 60), so a dereg
interleaved between the read and the locked fold makes calcStat return a
total that misses the deregistering instance's contribution entirely:
with one live instance holding 5, the raced calcStat returns 0 although
the true total is 5 (as an uninterleaved calcStat after the dereg
confirms). -/
theorem calcStat_race_loses_contribution :
    calcStatRacedWithDereg (cRun [COp.reg, COp.add 0 5]) 0 = 0 ∧
    (cRunTot [COp.reg, COp.add 0 5]).2 = 5 ∧
    calcStat (cStep (cRun [COp.reg, COp.add 0 5]) (COp.dereg 0)) = 5 := by
  refine ⟨by decide, by decide, by decide⟩

/-- C3 counterexample: the aggregate reached by five add(0) calls has
count 5 and cycles 0; the code keys the "N/A" marker on cycles == 0
(src/hwstat.h lines 296-297), so both averages display as N/A although
the event count is nonzero, refuting the claimed "if and only if the
event count is zero". -/
theorem avg_na_marker_counterexample :
    timerAggOf [0, 0, 0, 0, 0] = ⟨5, 0⟩ ∧
    avgNanosDisplay 2 (timerAggOf [0, 0, 0, 0, 0]) = none ∧
    avgCyclesDisplay (timerAggOf [0, 0, 0, 0, 0]) = none ∧
    (timerAggOf [0, 0, 0, 0, 0]).cnt ≠ 0 := by
  refine ⟨by decide, by decide, by decide, by decide⟩

/-- C3 amended: the "N/A" marker is keyed on cycles == 0, not on the
event count: for every aggregate the display is N/A exactly when cycles
is zero; on every aggregate reachable by fewer than 2^64 add calls a
zero count still yields the N/A marker (so the division by zero of a
zero-count average is never performed), and whenever a numeric average
is displayed the count is nonzero. -/
theorem avg_na_marker_amended (freq : ℚ) (a : TimerAgg) (ds : List Nat)
    (hlen : ds.length < W) :
    (avgNanosDisplay freq a = none ↔ a.cycles = 0) ∧
    (avgCyclesDisplay a = none ↔ a.cycles = 0) ∧
    (avgDisplayIsNA a = true ↔ a.cycles = 0) ∧
    ((timerAggOf ds).cnt = 0 → avgCyclesDisplay (timerAggOf ds) = none) ∧
    (avgCyclesDisplay (timerAggOf ds) ≠ none → (timerAggOf ds).cnt ≠ 0) := by
  refine ⟨?_, ?_, ?_, ?_, ?_⟩
  · unfold avgNanosDisplay
    by_cases h : a.cycles = 0 <;> simp [h]
  · unfold avgCyclesDisplay
    by_cases h : a.cycles = 0 <;> simp [h]
  · unfold avgDisplayIsNA
    by_cases h : a.cycles = 0 <;> simp [h]
  · intro hcnt
    rw [timerAggOf_cnt, Nat.mod_eq_of_lt hlen] at hcnt
    have hds : ds = [] := List.eq_nil_of_length_eq_zero hcnt
    subst hds
    rfl
  · intro hdisp hcnt
    rw [timerAggOf_cnt, Nat.mod_eq_of_lt hlen] at hcnt
    have hds : ds = [] := List.eq_nil_of_length_eq_zero hcnt
    subst hds
    exact hdisp rfl

/-- C3 amended witness: frequency 2 GHz, the aggregate of two adds. -/
theorem avg_na_marker_amended_witness :
    ([3, 4] : List Nat).length < W ∧
    ((avgNanosDisplay 2 ⟨1, 2⟩ = none ↔ (⟨1, 2⟩ : TimerAgg).cycles = 0) ∧
    (avgCyclesDisplay ⟨1, 2⟩ = none ↔ (⟨1, 2⟩ : TimerAgg).cycles = 0) ∧
    (avgDisplayIsNA ⟨1, 2⟩ = true ↔ (⟨1, 2⟩ : TimerAgg).cycles = 0) ∧
    ((timerAggOf [3, 4]).cnt = 0 →
      avgCyclesDisplay (timerAggOf [3, 4]) = none) ∧
    (avgCyclesDisplay (timerAggOf [3, 4]) ≠ none →
      (timerAggOf [3, 4]).cnt ≠ 0)) :=
  ⟨by decide, avg_na_marker_amended 2 ⟨1, 2⟩ [3, 4] (by decide)⟩

/-- C4: the calibration has no zero-or-negative guard: a measurement in
which the cycle counter shows no progress yields frequency 0, which is
returned as an ordinary value (no error path exists in
measure_tsc_ghz), and the kFreqGhz initialiser caches any measured
value, zero and negative ones included, unchanged. -/
theorem calibration_unguarded :
    measure_tsc_ghz 0 10000000 = 0 ∧
    (∀ q : ℚ, kFreqGhzInit q = q) ∧
    kFreqGhzInit (measure_tsc_ghz 0 10000000) = 0 ∧
    kFreqGhzInit (-1) = -1 := by
  refine ⟨?_, fun q => rfl, ?_, rfl⟩ <;>
    simp [measure_tsc_ghz, kFreqGhzInit]

/-- C5: k add calls accumulate count k and the sum of the deltas in
cycles (as uint64 values), aggregate(prev) adds both fields to prev, and
the concrete scenario holds: five add(1000) calls yield count 5,
cycles 5000, avgCycles 1000 by integer division, and avgNanos 500 at a
calibrated frequency of 2 GHz. -/
theorem timer_add_aggregate_semantics (ds : List Nat) (prev : TimerAgg) :
    (timerRun ds).cnt = ds.length % W ∧
    (timerRun ds).cycles = ds.sum % W ∧
    (timerRun ds).aggregate prev =
      ⟨(prev.cnt + ds.length) % W, (prev.cycles + ds.sum) % W⟩ ∧
    timerRun [1000, 1000, 1000, 1000, 1000] = ⟨5000, 5⟩ ∧
    (timerAggOf [1000, 1000, 1000, 1000, 1000]).getAvgCycles = 1000 ∧
    (timerAggOf [1000, 1000, 1000, 1000, 1000]).getAvgNanos 2 = 500 := by
  have hagg : timerAggOf [1000, 1000, 1000, 1000, 1000] = ⟨5, 5000⟩ := by
    decide
  refine ⟨timerRun_cnt ds, timerRun_cycles ds, ?_, by decide, by decide, ?_⟩
  case refine_2 =>
    rw [hagg]
    norm_num [TimerAgg.getAvgNanos, TimerAgg.getNanos]
  rw [PerThreadTimer.aggregate]
  refine congrArg₂ TimerAgg.mk ?_ ?_
  · rw [timerRun_cnt]
    exact Nat.ModEq.add_left _ (Nat.mod_modEq _ _)
  · rw [timerRun_cycles]
    exact Nat.ModEq.add_left _ (Nat.mod_modEq _ _)

/-- C6 counterexample: std::map::emplace refuses to overwrite an
existing key, so registering a second entry under the name already held
by the first leaves the directory unchanged: lookup still yields the
first entry and the second is nowhere in the directory -- the claimed
"both entries are stored" and "last-registered wins" are both false. -/
theorem duplicate_name_counterexample :
    dirEmplace (dirEmplace [] (some "reqs") 1) (some "reqs") 2 =
      [(some "reqs", 1)] ∧
    dirFind (dirEmplace (dirEmplace [] (some "reqs") 1) (some "reqs") 2)
      (some "reqs") = some 1 ∧
    (some "reqs", 2) ∉
      dirEmplace (dirEmplace [] (some "reqs") 1) (some "reqs") 2 := by
  refine ⟨by decide, by decide, by decide⟩

/-- C6 amended: constructing a second registry entry with a name equal
to an existing one is accepted without error, but only the
first-registered entry is stored in the directory: the emplace of the
duplicate is a silent no-op, lookup by the name yields the
first-registered entry, and the destructor of either entry erases the
shared name, removing the first entry's mapping. -/
theorem duplicate_name_amended (n : String) (v1 v2 : Nat) :
    globalStatCtor (some n) (dirEmplace [] (some n) v1) v2 =
      Except.ok (dirEmplace [] (some n) v1) ∧
    dirFind (dirEmplace (dirEmplace [] (some n) v1) (some n) v2)
      (some n) = some v1 ∧
    dirErase (dirEmplace (dirEmplace [] (some n) v1) (some n) v2)
      (some n) = [] := by
  have h1 : dirEmplace ([] : DirMap) (some n) v1 = [(some n, v1)] := rfl
  have h2 : dirEmplace [(some n, v1)] (some n) v2 = [(some n, v1)] := by
    simp [dirEmplace]
  refine ⟨?_, ?_, ?_⟩
  · show Except.ok (dirEmplace (dirEmplace [] (some n) v1) (some n) v2) =
      Except.ok (dirEmplace [] (some n) v1)
    rw [h1, h2]
  · rw [h1, h2]
    show (if (some n : Option String) = some n then some v1
      else dirFind [] (some n)) = some v1
    rw [if_pos rfl]
  · rw [h1, h2]
    simp [dirErase]

/-- C7 counterexample: the global registry constructor accepts the empty
name (assert(name) only rejects a null pointer), and the user-callback
stat constructor accepts even a null name -- neither declaration fails
fast as the claim requires for both null and empty names. -/
theorem name_validation_counterexample :
    globalStatCtor (some "") [] 0 = Except.ok [(some "", 0)] ∧
    simpleStatCtor none [] 0 = Except.ok [(none, 0)] := by
  refine ⟨rfl, rfl⟩

/-- C7 amended: only the global registry constructor validates the name
and only against null (the assert, active when assertions are compiled
in): a null name fails there, while an empty name is accepted; the
user-callback stat constructor performs no check at all and accepts
null and empty names alike. -/
theorem name_validation_amended (m : DirMap) (v : Nat) (n : String) :
    globalStatCtor none m v = Except.error () ∧
    globalStatCtor (some n) m v = Except.ok (dirEmplace m (some n) v) ∧
    simpleStatCtor none m v = Except.ok (dirEmplace m none v) ∧
    simpleStatCtor (some n) m v = Except.ok (dirEmplace m (some n) v) :=
  ⟨rfl, rfl, rfl, rfl⟩

/-- C8: one construction-destruction pair of ScopedTimer performs exactly
one commit on the per-thread timer, at destruction: the whole scope
lifecycle equals a single add of the elapsed uint64 cycle difference,
raising the event count by exactly one and the cycle total by the
elapsed amount; and stop() equals pause() followed by committing the
running total via add and resetting the running total to zero. -/
theorem scoped_timer_commits_once (tStart tEnd now : Nat)
    (t : PerThreadTimer) (sw : Stopwatch) :
    scopedTimerLife tStart tEnd t = t.add (sub64 tEnd tStart) ∧
    (scopedTimerLife tStart tEnd t).cnt = (t.cnt + 1) % W ∧
    (scopedTimerLife tStart tEnd t).cycles =
      (t.cycles + sub64 tEnd tStart) % W ∧
    sw.stop now t =
      (⟨(sw.pause now).st, 0⟩, t.add (sw.pause now).agg) := by
  have hlife : scopedTimerLife tStart tEnd t = t.add (sub64 tEnd tStart) := by
    show t.add ((0 + sub64 tEnd (tStart % W)) % W) = t.add (sub64 tEnd tStart)
    congr 1
    rw [Nat.zero_add, sub64, sub64, Nat.mod_mod_of_dvd _ dvd_rfl,
      Nat.mod_mod_of_dvd _ dvd_rfl]
  refine ⟨hlife, ?_, ?_, rfl⟩
  · rw [hlife]
    rfl
  · rw [hlife]
    rfl

/-- C9 counterexample: the disabled-mode printStats specialisations have
empty bodies, so with a populated directory the report output is the
empty list: no table, but also no explicit "no stats" indication (the
enabled build's "NO TIMERS" / "NO COUNTERS" lines are never produced),
refuting the claimed explicit indication. -/
theorem noop_reporting_counterexample :
    noopTimerPrintStats [(some "work", 1)] = [] ∧
    noopCounterPrintStats [(some "reqs", 1)] = [] ∧
    "NO TIMERS" ∉ noopTimerPrintStats [(some "work", 1)] ∧
    "NO COUNTERS" ∉ noopCounterPrintStats [(some "reqs", 1)] := by
  refine ⟨rfl, rfl, by simp [noopTimerPrintStats],
    by simp [noopCounterPrintStats]⟩

/-- C9 amended: in the disabled build every accumulator operation is a
no-op (construction, add and destruction never touch the registry, whose
live-instance set hence stays empty and whose calcStat returns zero),
aggregate and stat return the zero aggregate for every input, the
stopwatch operations leave everything untouched -- but reporting
produces no output at all, neither a table nor a "no stats"
indication. -/
theorem noop_mode_amended (ops : List COp) (prev : TimerAgg) (p : Nat)
    (sw : Stopwatch) (t : PerThreadTimer) (dir : DirMap) :
    noopRegistryRun ops = CState.init ∧
    (noopRegistryRun ops).instances = [] ∧
    calcStat (noopRegistryRun ops) = 0 ∧
    noopTimerAggregate prev = ⟨0, 0⟩ ∧
    noopCounterAggregate p = 0 ∧
    noopTimerStat = ⟨0, 0⟩ ∧
    noopCounterStat = 0 ∧
    noopStopwatchStop sw t = (sw, t) ∧
    noopTimerPrintStats dir = [] ∧
    noopCounterPrintStats dir = [] := by
  have hrun : noopRegistryRun ops = CState.init := noopRegistryFoldl ops _
  refine ⟨hrun, ?_, ?_, rfl, rfl, rfl, rfl, rfl, rfl, rfl⟩
  · rw [hrun]
    rfl
  · rw [hrun]
    rfl

/-- C10: every stop() on an enabled stopwatch performs exactly one add
on the owning per-thread timer and therefore raises its event count by
exactly one, whatever sequence of pause and resume calls preceded it;
and since the count is incremented unconditionally with a cycle-delta
parameter defaulting to zero, even a zero-cycle measurement is recorded
as one event. -/
theorem stop_records_one_event (sw : Stopwatch) (ops : List SwOp)
    (now : Nat) (t : PerThreadTimer) :
    ((runSw sw ops).stop now t).2 =
      t.add ((runSw sw ops).pause now).agg ∧
    ((runSw sw ops).stop now t).2.cnt = (t.cnt + 1) % W ∧
    t.addDefault = t.add 0 ∧
    (t.add 0).cnt = (t.cnt + 1) % W ∧
    (t.add 0).cycles = t.cycles % W :=
  ⟨rfl, rfl, rfl, rfl, rfl⟩


end Hwstat
